import Mathlib

/-!
Verification development for the ml-service of the travel-platform repository.

The Python sources under src/backend/ml-service are shallowly embedded:

* `src/config/model_config.py` — the Config Provider (`mergeConfigs`,
  `validateRecommendationConfig`, `getRecommendationConfig`);
* `src/utils/data_preprocessor.py` — the recommendation-type feature
  preprocessing pipeline (`fitTransformers`, `processRow`, `processAll`,
  `fitTransform`, `transform`);
* `src/models/persona_model.py` — the persona model training and prediction
  state machine (`personaTrain`, `personaPredict`);
* `src/models/recommendation_model.py` — diversity selection, confidence
  normalization and the train/update label derivation (`enhanceDiversity`,
  `calculateDiversity`, `calculateConfidence`, `recTrainInputs`,
  `recUpdateInputs`);
* `src/services/model_trainer.py` — the versioned artifact save protocol
  (`saveModel` over a small filesystem model).

Python float arithmetic is embedded as exact arithmetic: rationals where the
code only compares and copies scores, reals where the code takes square roots
(numpy std, vector norms).  Fallible steps are embedded with `Option`/`Except`.
The neural-network framework (keras fit/predict) is an external collaborator
and enters as explicit result parameters.
-/

/-! ## Generic association lists (Python dict / flat filesystem namespace)

Python dicts keep one value per key; assignment `d[k] = v` replaces the value
of an existing key in place and appends a fresh key at the end.  `assocLookup`
finds the first binding, `assocSet` replaces the first binding or appends,
`assocRemove` drops every binding of the key. -/

def assocLookup {κ α : Type} [DecidableEq κ] (k : κ) : List (κ × α) → Option α
  | [] => none
  | (k2, v) :: t => if k2 = k then some v else assocLookup k t

def assocSet {κ α : Type} [DecidableEq κ] (k : κ) (v : α) : List (κ × α) → List (κ × α)
  | [] => [(k, v)]
  | (k2, v2) :: t => if k2 = k then (k, v) :: t else (k2, v2) :: assocSet k v t

def assocRemove {κ α : Type} [DecidableEq κ] (k : κ) : List (κ × α) → List (κ × α)
  | [] => []
  | (k2, v2) :: t => if k2 = k then assocRemove k t else (k2, v2) :: assocRemove k t

/-! ## Config Provider (`src/config/model_config.py`)

Configuration values are nested YAML mappings; leaves are abstracted to
opaque scalars tagged by a natural number. -/

inductive CVal where
  | leaf (n : Nat)
  | dict (entries : List (String × CVal))

/-- Embedding of `ModelConfig._merge_configs` (model_config.py lines 90-108).
`merged = base.copy()`; for each override item `(k, v)` in order:
if `v` is a dict and `k` is in `merged`, recurse into the two values —
the source calls `_merge_configs(merged[k], v)`, whose first action
`base.copy()` raises when `merged[k]` is a scalar, embedded as `none`;
otherwise `merged[k] = v`. -/
def mergeConfigs : List (String × CVal) → List (String × CVal) → Option (List (String × CVal))
  | base, [] => some base
  | base, (k, CVal.leaf n) :: rest => mergeConfigs (assocSet k (CVal.leaf n) base) rest
  | base, (k, CVal.dict o) :: rest =>
    match assocLookup k base with
    | some (CVal.dict b) =>
      match mergeConfigs b o with
      | some m => mergeConfigs (assocSet k (CVal.dict m) base) rest
      | none => none
    | some (CVal.leaf _) => none
    | none => mergeConfigs (assocSet k (CVal.dict o) base) rest

/-- Errors surfaced by the config manager.  `validation` carries the list of
keys named in the `ConfigValidationError` message; `typeError` stands for the
TypeError Python raises when the configured section is not a mapping. -/
inductive ConfigError where
  | validation (namedKeys : List String)
  | typeError
deriving DecidableEq, Repr

/-- The `required_keys` set of `_validate_recommendation_config`
(model_config.py lines 190-194). -/
def requiredRecommendationKeys : List String :=
  ["model_architecture", "hyperparameters", "training_settings"]

/-- Embedding of `ModelConfig._validate_recommendation_config`
(model_config.py lines 190-194): if not every required key is present, raise
`ConfigValidationError(f"Missing required keys in recommendation config:
{required_keys}")` — the message names the whole required set. -/
def validateRecommendationConfig (config : List (String × CVal)) : Except ConfigError Unit :=
  if requiredRecommendationKeys.all (fun k => (assocLookup k config).isSome) then
    Except.ok ()
  else
    Except.error (ConfigError.validation requiredRecommendationKeys)

/-- The required keys actually absent from a recommendation config section. -/
def missingKeys (config : List (String × CVal)) : List String :=
  requiredRecommendationKeys.filter (fun k => (assocLookup k config).isNone)

/-- Embedding of `ModelConfig.get_recommendation_config`
(model_config.py lines 110-128): read the `recommendation_model` section,
defaulting to the empty mapping, validate it, and return it unchanged on
success (per-process caching does not change the returned value). -/
def getRecommendationConfig (full : List (String × CVal)) :
    Except ConfigError (List (String × CVal)) :=
  match assocLookup "recommendation_model" full with
  | some (CVal.leaf _) => Except.error ConfigError.typeError
  | some (CVal.dict d) =>
    match validateRecommendationConfig d with
    | Except.ok _ => Except.ok d
    | Except.error e => Except.error e
  | none =>
    match validateRecommendationConfig [] with
    | Except.ok _ => Except.ok []
    | Except.error e => Except.error e

/-! ## Model Trainer save protocol (`src/services/model_trainer.py`)

`save_model` manipulates whole version directories under `MODELS_PATH`
(default "models").  The filesystem is modeled as a flat association list
from directory path to the set of artifact parts written inside that
directory; every node the trainer creates is a directory (made by
`os.makedirs` or moved by `os.rename`), which is exactly why the cleanup
step `os.remove(backup)` always raises when the backup path exists. -/

structure BundleParts where
  modelPart : Bool
  preprocessorPart : Bool
  metadataPart : Bool
deriving DecidableEq, Repr

abbrev FileSystem := List (String × BundleParts)

/-- `os.path.join(MODELS_PATH, f"temp_{version}")`. -/
def tempPath (version : String) : String := "models/temp_" ++ version

/-- `os.path.join(MODELS_PATH, version)`. -/
def finalPath (version : String) : String := "models/" ++ version

/-- `f"{final_path}_backup"`. -/
def backupPath (version : String) : String := finalPath version ++ "_backup"

/-- `os.makedirs(p, exist_ok=True)`: create an empty directory unless the
path already exists. -/
def makedirs (p : String) (fs : FileSystem) : FileSystem :=
  match assocLookup p fs with
  | some _ => fs
  | none => assocSet p ⟨false, false, false⟩ fs

/-- A sub-artifact write inside directory `p` (model save, preprocessor
save, metadata `np.save`), recorded as setting that part flag. -/
def writePart (p : String) (f : BundleParts → BundleParts) (fs : FileSystem) : FileSystem :=
  match assocLookup p fs with
  | some b => assocSet p (f b) fs
  | none => fs

/-- `os.rename(src, dst)`: move the directory; fails (raises) when the source
is absent or the destination already exists (renaming a directory onto an
existing non-empty directory raises `OSError`). -/
def fsRename (src dst : String) (fs : FileSystem) : Option FileSystem :=
  match assocLookup src fs, assocLookup dst fs with
  | some b, none => some (assocSet dst b (assocRemove src fs))
  | _, _ => none

/-- Embedding of `ModelTrainer.save_model` (model_trainer.py lines 190-246).

The three write steps are external collaborators; `modelOk`, `preOk` and
`metaOk` report whether each write succeeded.  Any exception is caught by
the enclosing handler, which logs and returns `False`, so each failing step
is embedded as an early `(false, fs)` return.  The cleanup step
`os.remove(f"{final_path}_backup")` is a file removal applied to a
directory: it raises whenever the backup path exists, and raises
`FileNotFoundError` when it does not — but the source only calls it under
an `os.path.exists` guard, so the reachable outcome of the cleanup is
always an exception, embedded as returning `false` with the filesystem
unchanged. -/
def saveModel (fs : FileSystem) (version : String) (modelOk preOk metaOk : Bool) :
    Bool × FileSystem :=
  let temp := tempPath version
  let final := finalPath version
  let backup := backupPath version
  let fs1 := makedirs temp fs
  let fs2 := if modelOk then writePart temp (fun b => { b with modelPart := true }) fs1 else fs1
  let fs3 := if preOk then writePart temp (fun b => { b with preprocessorPart := true }) fs2 else fs2
  if modelOk && preOk then
    if metaOk then
      let fs4 := writePart temp (fun b => { b with metadataPart := true }) fs3
      if (assocLookup final fs4).isSome then
        match fsRename final backup fs4 with
        | none => (false, fs4)
        | some fs5 =>
          match fsRename temp final fs5 with
          | none => (false, fs5)
          | some fs6 =>
            if (assocLookup backup fs6).isSome then (false, fs6) else (true, fs6)
      else
        match fsRename temp final fs4 with
        | none => (false, fs4)
        | some fs5 =>
          if (assocLookup backup fs5).isSome then (false, fs5) else (true, fs5)
    else (false, fs3)
  else (false, fs3)

/-! ## Feature Preprocessor, recommendation pipeline
(`src/utils/data_preprocessor.py`)

A recommendation-type input row carries the three numerical and the three
categorical features of `NUMERICAL_FEATURES` and `CATEGORICAL_FEATURES`.
Float columns are embedded as real numbers because `StandardScaler` fitting
takes a square root (the column standard deviation). -/

open scoped Classical

structure RecRow where
  budget : ℝ
  duration : ℝ
  groupSize : ℝ
  destinationType : String
  travelStyle : String
  accommodationType : String

/-- `np.mean` of a one-dimensional array. -/
noncomputable def npMean (l : List ℝ) : ℝ := l.sum / l.length

/-- `np.std` (population standard deviation, ddof = 0). -/
noncomputable def npStd (l : List ℝ) : ℝ :=
  Real.sqrt (npMean (l.map (fun x => (x - npMean l) ^ 2)))

/-- `StandardScaler` scale for one column: the standard deviation, with the
scikit-learn convention that a zero-variance column gets scale 1 so the
transform never divides by zero. -/
noncomputable def scaleOf (xs : List ℝ) : ℝ :=
  if npStd xs = 0 then 1 else npStd xs

/-- `LabelEncoder.fit` classes: the sorted distinct values (`np.unique`). -/
def classesOf (xs : List String) : List String :=
  xs.dedup.insertionSort (fun a b => a ≤ b)

/-- `LabelEncoder.transform` of a single value: its index among the fitted
classes; an unseen category raises `ValueError`, embedded as `none`. -/
def encodeClass : List String → String → Option Nat
  | [], _ => none
  | c :: cs, s => if c = s then some 0 else (encodeClass cs s).map (· + 1)

/-- The fitted transformer parameters of a recommendation-type
`DataPreprocessor`: `StandardScaler` mean and scale per numerical feature
(order `budget, duration, group_size`) and `LabelEncoder` classes per
categorical feature (order `destination_type, travel_style,
accommodation_type`). -/
structure FittedTransformers where
  numMeans : List ℝ
  numScales : List ℝ
  destClasses : List String
  styleClasses : List String
  accomClasses : List String

/-- Fitting in `_process_recommendation_data(data, fit=True)`
(data_preprocessor.py lines 316-326): `StandardScaler.fit` on the numerical
columns and a fresh `LabelEncoder.fit` per categorical column. -/
noncomputable def fitTransformers (rows : List RecRow) : FittedTransformers :=
  { numMeans := [npMean (rows.map RecRow.budget),
                 npMean (rows.map RecRow.duration),
                 npMean (rows.map RecRow.groupSize)]
  , numScales := [scaleOf (rows.map RecRow.budget),
                  scaleOf (rows.map RecRow.duration),
                  scaleOf (rows.map RecRow.groupSize)]
  , destClasses := classesOf (rows.map RecRow.destinationType)
  , styleClasses := classesOf (rows.map RecRow.travelStyle)
  , accomClasses := classesOf (rows.map RecRow.accommodationType) }

/-- The transform half of `_process_recommendation_data`
(data_preprocessor.py lines 328-337) on one row: standardized numerical
features followed by the integer-encoded categorical features
(`np.hstack([numerical_data, categorical_data])`, columnwise transforms read
rowwise). -/
noncomputable def processRow (t : FittedTransformers) (r : RecRow) : Option (List ℝ) := do
  let d ← encodeClass t.destClasses r.destinationType
  let st ← encodeClass t.styleClasses r.travelStyle
  let a ← encodeClass t.accomClasses r.accommodationType
  pure [(r.budget - t.numMeans.getD 0 0) / t.numScales.getD 0 1,
        (r.duration - t.numMeans.getD 1 0) / t.numScales.getD 1 1,
        (r.groupSize - t.numMeans.getD 2 0) / t.numScales.getD 2 1,
        (d : ℝ), (st : ℝ), (a : ℝ)]

/-- `_process_recommendation_data` transform applied to every row of the
data frame; the whole call raises as soon as any row holds an unseen
category. -/
noncomputable def processAll (t : FittedTransformers) : List RecRow → Option (List (List ℝ))
  | [] => some []
  | r :: rs => do
    let x ← processRow t r
    let xs ← processAll t rs
    pure (x :: xs)

/-- The `PreprocessingError` exception of data_preprocessor.py. -/
structure PreprocessingError where
  message : String

/-- The preprocessor state a recommendation-type `DataPreprocessor` keeps
between calls: `preprocessor_state['last_updated']` (embedded as an abstract
tick, `none` until the first successful `fit_transform`) and the fitted
transformer parameters. -/
structure PreprocessorState where
  lastUpdated : Option Nat
  transformers : FittedTransformers

/-- The state of a freshly constructed `DataPreprocessor('recommendation',
env)`: `last_updated` is `None` and no transformer has been fitted
(`StandardScaler()` defaults embedded as empty parameter lists). -/
noncomputable def initialPreprocessorState : PreprocessorState :=
  { lastUpdated := none
  , transformers := ⟨[], [], [], [], []⟩ }

/-- Embedding of `DataPreprocessor.fit_transform` (data_preprocessor.py
lines 129-167) for the recommendation pipeline: refit the transformers on
the data, transform the data, and on success record `last_updated`.  The
transformer mutation survives even when the transform half fails, because
the source fits in place before transforming. -/
noncomputable def fitTransform (s : PreprocessorState) (now : Nat) (rows : List RecRow) :
    PreprocessorState × Except PreprocessingError (List (List ℝ)) :=
  let t := fitTransformers rows
  match processAll t rows with
  | some out => ({ lastUpdated := some now, transformers := t }, Except.ok out)
  | none => ({ s with transformers := t },
             Except.error ⟨"Fit transform failed: unseen category"⟩)

/-- Embedding of `DataPreprocessor.transform` (data_preprocessor.py lines
169-205): a preprocessor whose `last_updated` is still `None` raises
`PreprocessingError("Preprocessor must be fitted before transform")`, which
the enclosing handler re-wraps as `PreprocessingError(f"Transform failed:
{e}")`; otherwise the fitted transformers are applied with `fit=False` and
no state is mutated (the function reads `self.transformers` only). -/
noncomputable def transform (s : PreprocessorState) (rows : List RecRow) :
    Except PreprocessingError (List (List ℝ)) :=
  match s.lastUpdated with
  | none => Except.error ⟨"Transform failed: Preprocessor must be fitted before transform"⟩
  | some _ =>
    match processAll s.transformers rows with
    | some out => Except.ok out
    | none => Except.error ⟨"Transform failed: unseen category"⟩

/-- `transform` with the state threaded through, making explicit that the
call mutates nothing: the source method never assigns to `self`. -/
noncomputable def transformStateful (s : PreprocessorState) (rows : List RecRow) :
    PreprocessorState × Except PreprocessingError (List (List ℝ)) :=
  (s, transform s rows)

/-! ## Persona model (`src/models/persona_model.py`)

The keras predictor is an external collaborator: its `fit` outcome (the
history record) and its `predict` outputs enter as parameters.  Network
outputs and config thresholds are float scores without any square-root
arithmetic, embedded as rationals. -/

/-- The fields of `history.history` that `PersonaModel.train` reads, one
value per epoch. -/
structure TrainingHistory where
  loss : List ℚ
  recommendationsAccuracy : List ℚ
  confidenceAccuracy : List ℚ
  valLoss : List ℚ

/-- The metrics record `PersonaModel.train` returns on success. -/
structure TrainingMetrics where
  loss : ℚ
  accuracy : ℚ
  confidenceAccuracy : ℚ
  valLoss : ℚ

/-- The mutable state of a `PersonaModel`: the `model_state` counters, the
prediction cache (keyed by the exact input, matching
`hash(user_preferences.tobytes())` exact-match lookup) and the owned
recommendation-type preprocessor. -/
structure PersonaState where
  trainingIterations : Nat
  lastUpdate : Option Nat
  cache : List (List RecRow × (List (List ℚ) × List ℚ))
  pre : PreprocessorState

/-- Embedding of `PersonaModel.train` (persona_model.py lines 206-286).

Steps, in source order: preprocess `X_train` (`fit_transform` when not
incremental, `transform` when incremental); run the framework `fit`
(external, outcome `fitResult`); on success mutate the model state —
increment `training_iterations`, set `last_update`, clear the prediction
cache — and only then read the final history entries to build the metrics
record.  Any exception is re-raised as a runtime failure carrying the cause
(the `y_train`, `epochs` and `batch_size` arguments are forwarded to the
framework and do not influence the state transition). -/
noncomputable def personaTrain (s : PersonaState) (now : Nat) (xTrain : List RecRow)
    (incremental : Bool) (fitResult : Except String TrainingHistory) :
    PersonaState × Except String TrainingMetrics :=
  let pp := if incremental then transformStateful s.pre xTrain else fitTransform s.pre now xTrain
  match pp.2 with
  | Except.error e =>
    ({ s with pre := pp.1 }, Except.error ("Model training failed: " ++ e.message))
  | Except.ok _ =>
    match fitResult with
    | Except.error e => ({ s with pre := pp.1 }, Except.error ("Model training failed: " ++ e))
    | Except.ok h =>
      let s2 := { s with pre := pp.1
                       , trainingIterations := s.trainingIterations + 1
                       , lastUpdate := some now
                       , cache := [] }
      match h.loss.getLast?, h.recommendationsAccuracy.getLast?,
            h.confidenceAccuracy.getLast?, h.valLoss.getLast? with
      | some l, some a, some c, some v => (s2, Except.ok ⟨l, a, c, v⟩)
      | _, _, _, _ => (s2, Except.error "Model training failed: empty training history")

/-- Embedding of `PersonaModel.predict` (persona_model.py lines 288-341).

With caching enabled, an exact-match cache hit returns the stored pair.
Otherwise the input is preprocessed, the network produces `netRecs` rows
with per-row confidences `netConf` (external collaborator), rows below the
configured threshold are filtered out, and, if the filter removed every
row, the fallback returns the full unfiltered rows with every confidence
overwritten by `np.ones_like(confidence) * 0.5`. -/
noncomputable def personaPredict (s : PersonaState) (input : List RecRow) (useCache : Bool)
    (netRecs : List (List ℚ)) (netConf : List ℚ) (threshold : ℚ) :
    PersonaState × Except String (List (List ℚ) × List ℚ) :=
  match useCache, assocLookup input s.cache with
  | true, some cached => (s, Except.ok cached)
  | _, _ =>
    match transform s.pre input with
    | Except.error e => (s, Except.error ("Model prediction failed: " ++ e.message))
    | Except.ok _ =>
      let valid := ((netRecs.zip netConf).filter (fun p => decide (threshold ≤ p.2))).map Prod.fst
      let result := if valid.isEmpty
        then (netRecs, netConf.map (fun _ => (1 : ℚ) / 2))
        else (valid, netConf)
      let s2 := if useCache then { s with cache := assocSet input result s.cache } else s
      (s2, Except.ok result)

/-! ## Recommendation model (`src/models/recommendation_model.py`) -/

/-- `np.dot` of two one-dimensional vectors. -/
noncomputable def dotProduct (v w : List ℝ) : ℝ :=
  ((v.zip w).map (fun p => p.1 * p.2)).sum

/-- `np.linalg.norm` of a one-dimensional vector. -/
noncomputable def vecNorm (v : List ℝ) : ℝ := Real.sqrt (dotProduct v v)

/-- The cosine-similarity division of `_calculate_diversity`.  When the
denominator `norm(v) * norm(s)` is zero, one of the vectors is the zero
vector, so the numerator `np.dot(v, s)` is zero as well and numpy computes
`0.0/0.0 = NaN`; `none` models that NaN (a nonzero numerator over a zero
denominator, which floats would send to infinity instead, cannot occur
here). -/
noncomputable def nanDiv (a b : ℝ) : Option ℝ :=
  if b = 0 then none else some (a / b)

/-- Sequencing of possibly-NaN float values: `some` of the list when no
entry is NaN, `none` as soon as one is. -/
noncomputable def seqOption : List (Option ℝ) → Option (List ℝ)
  | [] => some []
  | none :: _ => none
  | some x :: t => (seqOption t).map (fun r => x :: r)

/-- `np.mean` over possibly-NaN similarities: NaN whenever any entry is
NaN, the ordinary mean otherwise. -/
noncomputable def nanMean (l : List (Option ℝ)) : Option ℝ :=
  (seqOption l).map npMean

/-- Embedding of `RecommendationModel._calculate_diversity`
(recommendation_model.py lines 393-405): with no previously selected
features (`selected_features is None`) the diversity is `1.0`; otherwise it
is one minus the mean cosine similarity to the selected feature vectors.
A zero-norm feature vector makes its similarity `0.0/0.0 = NaN`, which
propagates through the mean and the subtraction; `none` models NaN. -/
noncomputable def calculateDiversity (v : List ℝ) : Option (List (List ℝ)) → Option ℝ
  | none => some 1
  | some sels =>
    (nanMean (sels.map (fun s => nanDiv (dotProduct v s) (vecNorm v * vecNorm s)))).map
      (fun m => 1 - m)

/-- One candidate score of the `_enhance_diversity` loop
(recommendation_model.py lines 375-382): `lambda_param * relevance +
(1 - lambda_param) * diversity` with `lambda_param = 0.5`, where the
diversity is computed against `features[selected_indices] if
selected_indices else None`.  A NaN diversity makes the whole score NaN
(`none`); the relevance is a network output, taken as an ordinary real. -/
noncomputable def mmrScore (preds : List ℝ) (feats : List (List ℝ)) (sel : List Nat)
    (i : Nat) : Option ℝ :=
  let lambdaParam : ℝ := 0.5
  let relevance := preds.getD i 0
  (calculateDiversity (feats.getD i [])
      (if sel.isEmpty then none else some (sel.map (fun j => feats.getD j [])))).map
    (fun diversity => lambdaParam * relevance + (1 - lambdaParam) * diversity)

/-- The inner `for i in range(len(predictions))` scan of
`_enhance_diversity`: fold over the candidate indices keeping the first
strictly-best unselected candidate, starting from `best_score = -inf`.
The update condition is `score > best_score`, which is false whenever the
score is NaN — a NaN-scored candidate is never taken, not even against the
initial `-inf` — while a real score always beats the empty accumulator and
ties keep the earlier index. -/
noncomputable def bestGo (preds : List ℝ) (feats : List (List ℝ)) (sel : List Nat) :
    List Nat → Option (Nat × ℝ) → Option (Nat × ℝ)
  | [], acc => acc
  | i :: is, acc =>
    bestGo preds feats sel is
      (if i ∈ sel then acc
       else
         match mmrScore preds feats sel i, acc with
         | none, a => a
         | some sc, none => some (i, sc)
         | some sc, some (j, s) => if s < sc then some (i, sc) else some (j, s))

/-- The best candidate (`best_idx`) of one `while` iteration of
`_enhance_diversity`; `none` corresponds to `best_idx == -1`. -/
noncomputable def bestCandidate (preds : List ℝ) (feats : List (List ℝ)) (sel : List Nat) :
    Option Nat :=
  (bestGo preds feats sel (List.range preds.length) none).map Prod.fst

/-- The `while len(selected_indices) < n_recommendations` loop of
`_enhance_diversity` (recommendation_model.py lines 371-389).  The source
loop spins forever when no candidate is ever appendable (`best_idx == -1`
leaves the length unchanged, which happens when every remaining score is
NaN); the embedding carries fuel and returns `none` for divergence, and the
fuel `n` given by `enhanceSelect` is proven sufficient whenever the pool is
large enough and free of zero-norm feature vectors. -/
noncomputable def selectLoop (preds : List ℝ) (feats : List (List ℝ)) (n : Nat) :
    Nat → List Nat → Option (List Nat)
  | 0, sel => if n ≤ sel.length then some sel else none
  | Nat.succ f, sel =>
    if n ≤ sel.length then some sel
    else
      match bestCandidate preds feats sel with
      | some j => selectLoop preds feats n f (sel ++ [j])
      | none => none

/-- The selected index list built by `_enhance_diversity`. -/
noncomputable def enhanceSelect (preds : List ℝ) (feats : List (List ℝ)) (n : Nat) :
    Option (List Nat) :=
  selectLoop preds feats n n []

/-- Embedding of `RecommendationModel._enhance_diversity`
(recommendation_model.py lines 364-391): the returned value is
`predictions[selected_indices]`. -/
noncomputable def enhanceDiversity (preds : List ℝ) (feats : List (List ℝ)) (n : Nat) :
    Option (List ℝ) :=
  (enhanceSelect preds feats n).map (fun sel => sel.map (fun i => preds.getD i 0))

/-- `np.max` of a one-dimensional array (callers never pass an empty
array; the empty case defaults to 0). -/
noncomputable def npMax (l : List ℝ) : ℝ := l.foldl max (l.headD 0)

/-- The pre-normalization confidence scores of
`RecommendationModel._calculate_confidence` (recommendation_model.py lines
407-414): `(1 - np.std(predictions, axis=0)) * np.mean(features, axis=1)`. -/
noncomputable def confidenceScoresRaw (preds : List ℝ) (features : List (List ℝ)) : List ℝ :=
  let predictionStd := npStd preds
  (features.map npMean).map (fun d => (1 - predictionStd) * d)

/-- Embedding of `RecommendationModel._calculate_confidence`
(recommendation_model.py lines 407-415): the raw scores divided by
`np.max(confidence_scores)` with no guard whatsoever — in the exact
embedding a division by a zero maximum yields 0, where numpy float
division yields NaN with a warning. -/
noncomputable def calculateConfidence (preds : List ℝ) (features : List (List ℝ)) : List ℝ :=
  let scores := confidenceScoresRaw preds features
  scores.map (fun c => c / npMax scores)

/-- Modelled from the spec: the confidence normalization as sections 4.5 and
7 of the spec demand it, with the division-by-zero degenerate case (a batch
whose maximum confidence is 0) checked explicitly before dividing and
reported with a specific message identifying that check.  The source has no
such guard; this definition exists only to compare the source behavior
against the claimed one. -/
noncomputable def checkedCalculateConfidence (preds : List ℝ) (features : List (List ℝ)) :
    Except String (List ℝ) :=
  let scores := confidenceScoresRaw preds features
  if npMax scores = 0 then
    Except.error "Division by zero in confidence normalization: max confidence is 0"
  else
    Except.ok (scores.map (fun c => c / npMax scores))

/-- The feature/label split of `RecommendationModel.train`
(recommendation_model.py lines 203-208): `X_train = processed_data[:, :-1]`
and `y_train = processed_data[:, -1]`. -/
noncomputable def splitFeaturesLabels (m : List (List ℝ)) : List (List ℝ) × List ℝ :=
  (m.map (fun r => r.dropLast), m.map (fun r => (r.getLast?).getD 0))

/-- The `(X_train, y_train)` pair that `RecommendationModel.train` passes to
the framework `fit` call: the signature accepts only `interaction_data`
(plus epochs and batch size) — no label vector — and the data is refit and
transformed by `fit_transform`, then split columnwise. -/
noncomputable def recTrainInputs (rows : List RecRow) :
    Option (List (List ℝ) × List ℝ) :=
  (processAll (fitTransformers rows) rows).map splitFeaturesLabels

/-- The `(X, y)` pair that `RecommendationModel.update`
(recommendation_model.py lines 317-342) passes to the framework `fit` call:
`new_interactions` is transformed by the already-fitted preprocessor
(`transform`, no refit) and split by the same `[:, :-1]` / `[:, -1]`
slices; a transform failure propagates as an exception, embedded as
`none`. -/
noncomputable def recUpdateInputs (s : PreprocessorState) (rows : List RecRow) :
    Option (List (List ℝ) × List ℝ) :=
  match transform s rows with
  | Except.ok m => some (splitFeaturesLabels m)
  | Except.error _ => none

/-! ## Concrete inputs used by the witness theorems -/

/-- A base configuration with a nested section. -/
def base0 : List (String × CVal) :=
  [("a", CVal.leaf 1), ("b", CVal.dict [("x", CVal.leaf 2), ("y", CVal.leaf 3)]),
   ("c", CVal.leaf 4)]

/-- An environment override touching the nested section and adding a key. -/
def override0 : List (String × CVal) :=
  [("b", CVal.dict [("y", CVal.leaf 9), ("z", CVal.leaf 10)]), ("d", CVal.leaf 11)]

/-- The merge of `base0` and `override0`. -/
def merged0 : List (String × CVal) :=
  [("a", CVal.leaf 1),
   ("b", CVal.dict [("x", CVal.leaf 2), ("y", CVal.leaf 9), ("z", CVal.leaf 10)]),
   ("c", CVal.leaf 4), ("d", CVal.leaf 11)]

/-- A recommendation config section missing `training_settings`. -/
def cfgSec0 : List (String × CVal) :=
  [("model_architecture", CVal.leaf 0), ("hyperparameters", CVal.leaf 1)]

/-- A full configuration whose recommendation section is `cfgSec0`. -/
def cfgFull0 : List (String × CVal) := [("recommendation_model", CVal.dict cfgSec0)]

/-- A filesystem already holding a complete bundle for version v1. -/
def fsExisting : FileSystem := [("models/v1", ⟨true, true, true⟩)]

/-- A fitted recommendation preprocessor state (fitted on an empty frame;
the transformer contents are irrelevant for empty transform inputs). -/
noncomputable def fittedState0 : PreprocessorState :=
  { lastUpdated := some 0, transformers := ⟨[], [], [], [], []⟩ }

/-- A persona model state with one cached prediction. -/
noncomputable def personaState0 : PersonaState :=
  { trainingIterations := 0
  , lastUpdate := none
  , cache := [([], ([[1]], [1]))]
  , pre := fittedState0 }

/-- A one-epoch keras history. -/
def history0 : TrainingHistory := ⟨[1], [2/3], [1/2], [2]⟩

/-- A one-row recommendation training frame. -/
noncomputable def rows0 : List RecRow := [⟨1, 2, 3, "beach", "relaxed", "hotel"⟩]

/-! ## Association list lemmas -/

theorem assocLookup_set_self {κ α : Type} [DecidableEq κ] (k : κ) (v : α)
    (l : List (κ × α)) : assocLookup k (assocSet k v l) = some v := by
  induction l with
  | nil => simp [assocSet, assocLookup]
  | cons hd t ih =>
    obtain ⟨k2, v2⟩ := hd
    by_cases hk : k2 = k <;> simp [assocSet, assocLookup, hk, ih]

theorem assocLookup_set_of_ne {κ α : Type} [DecidableEq κ] {q k : κ} (h : q ≠ k) (v : α)
    (l : List (κ × α)) : assocLookup q (assocSet k v l) = assocLookup q l := by
  induction l with
  | nil => simp [assocSet, assocLookup, Ne.symm h]
  | cons hd t ih =>
    obtain ⟨k2, v2⟩ := hd
    by_cases hk : k2 = k
    · subst hk
      simp [assocSet, assocLookup, Ne.symm h]
    · simp [assocSet, assocLookup, hk, ih]

theorem assocLookup_remove_self {κ α : Type} [DecidableEq κ] (k : κ)
    (l : List (κ × α)) : assocLookup k (assocRemove k l) = none := by
  induction l with
  | nil => simp [assocRemove, assocLookup]
  | cons hd t ih =>
    obtain ⟨k2, v2⟩ := hd
    by_cases hk : k2 = k <;> simp [assocRemove, assocLookup, hk, ih]

theorem assocLookup_remove_of_ne {κ α : Type} [DecidableEq κ] {q k : κ} (h : q ≠ k)
    (l : List (κ × α)) : assocLookup q (assocRemove k l) = assocLookup q l := by
  induction l with
  | nil => simp [assocRemove, assocLookup]
  | cons hd t ih =>
    obtain ⟨k2, v2⟩ := hd
    by_cases hk : k2 = k
    · subst hk
      simp [assocRemove, assocLookup, Ne.symm h, ih]
    · simp [assocRemove, assocLookup, hk, ih]

/-! ## Path distinctness for the save protocol -/

theorem string_length_append (a b : String) : (a ++ b).length = a.length + b.length := by
  cases a with
  | mk xs =>
    cases b with
    | mk ys => simp [String.length, String.append]

theorem tempPath_ne_finalPath (v : String) : tempPath v ≠ finalPath v := by
  intro h
  have h2 := congrArg String.length h
  rw [tempPath, finalPath, string_length_append, string_length_append] at h2
  have e1 : "models/temp_".length = 12 := rfl
  have e2 : "models/".length = 7 := rfl
  rw [e1, e2] at h2
  omega

theorem backupPath_ne_finalPath (v : String) : backupPath v ≠ finalPath v := by
  intro h
  have h2 := congrArg String.length h
  rw [backupPath, finalPath, string_length_append] at h2
  have e1 : "_backup".length = 7 := rfl
  rw [e1] at h2
  omega

theorem backupPath_ne_tempPath (v : String) : backupPath v ≠ tempPath v := by
  intro h
  have h2 := congrArg String.length h
  rw [backupPath, finalPath, tempPath, string_length_append, string_length_append,
      string_length_append] at h2
  have e1 : "_backup".length = 7 := rfl
  have e2 : "models/".length = 7 := rfl
  have e3 : "models/temp_".length = 12 := rfl
  rw [e1, e2, e3] at h2
  omega

/-! ## Filesystem step lemmas -/

theorem assocLookup_makedirs_of_ne {q p : String} (h : q ≠ p) (fs : FileSystem) :
    assocLookup q (makedirs p fs) = assocLookup q fs := by
  unfold makedirs
  cases hp : assocLookup p fs <;> simp [assocLookup_set_of_ne h]

theorem assocLookup_writePart_of_ne {q p : String} (h : q ≠ p)
    (f : BundleParts → BundleParts) (fs : FileSystem) :
    assocLookup q (writePart p f fs) = assocLookup q fs := by
  unfold writePart
  cases hp : assocLookup p fs <;> simp [assocLookup_set_of_ne h]

theorem assocLookup_writePart_self (p : String) (f : BundleParts → BundleParts)
    (fs : FileSystem) :
    assocLookup p (writePart p f fs) = (assocLookup p fs).map f := by
  unfold writePart
  cases hp : assocLookup p fs <;> simp [hp, assocLookup_set_self]

theorem assocLookup_makedirs_self (p : String) (fs : FileSystem) :
    ∃ b, assocLookup p (makedirs p fs) = some b := by
  unfold makedirs
  cases hp : assocLookup p fs <;> simp [hp, assocLookup_set_self]

/-! ## Claims about the save protocol -/

/-- Claim C1: for every `ModelTrainer.save_model(version)` call in which a
write step fails before the rename into the final version path (model part,
preprocessor part, or metadata write), the call returns the failure signal
and the final version path is left exactly as it was before the call — the
old bundle unchanged if one existed, or absent on a first save; no partial
bundle ever becomes visible under the final version path. -/
theorem saveModel_write_failure_preserves_final (fs : FileSystem) (v : String)
    (modelOk preOk metaOk : Bool)
    (h : modelOk = false ∨ preOk = false ∨ metaOk = false) :
    (saveModel fs v modelOk preOk metaOk).1 = false ∧
    assocLookup (finalPath v) (saveModel fs v modelOk preOk metaOk).2
      = assocLookup (finalPath v) fs := by
  have hft : finalPath v ≠ tempPath v := Ne.symm (tempPath_ne_finalPath v)
  rcases h with h | h | h <;> subst h
  · cases preOk <;> cases metaOk <;>
      simp [saveModel, assocLookup_makedirs_of_ne hft, assocLookup_writePart_of_ne hft]
  · cases modelOk <;> cases metaOk <;>
      simp [saveModel, assocLookup_makedirs_of_ne hft, assocLookup_writePart_of_ne hft]
  · cases modelOk <;> cases preOk <;>
      simp [saveModel, assocLookup_makedirs_of_ne hft, assocLookup_writePart_of_ne hft]

/-- Witness for C1: a save over an existing bundle in which the preprocessor
write fails returns `false` and leaves the final version path unchanged. -/
theorem saveModel_write_failure_preserves_final_witness :
    (saveModel fsExisting "v1" true false true).1 = false ∧
    assocLookup (finalPath "v1") (saveModel fsExisting "v1" true false true).2
      = assocLookup (finalPath "v1") fsExisting :=
  saveModel_write_failure_preserves_final fsExisting "v1" true false true
    (Or.inr (Or.inl rfl))

/-- Claim C9: when a bundle already exists at the final version path and
every write and both renames succeed, `save_model` still returns `False`
and leaves a `<version>_backup` directory on disk, even though the new
bundle is fully installed and visible at the final version path — the
backup cleanup calls `os.remove` on a directory, which always raises. -/
theorem saveModel_success_leaves_backup_and_returns_false (fs : FileSystem) (v : String)
    (old : BundleParts)
    (hfinal : assocLookup (finalPath v) fs = some old)
    (hbackup : assocLookup (backupPath v) fs = none) :
    (saveModel fs v true true true).1 = false ∧
    assocLookup (finalPath v) (saveModel fs v true true true).2 = some ⟨true, true, true⟩ ∧
    assocLookup (backupPath v) (saveModel fs v true true true).2 = some old := by
  have htf : tempPath v ≠ finalPath v := tempPath_ne_finalPath v
  have hbf : backupPath v ≠ finalPath v := backupPath_ne_finalPath v
  have hbt : backupPath v ≠ tempPath v := backupPath_ne_tempPath v
  have hft : finalPath v ≠ tempPath v := Ne.symm htf
  have hfb : finalPath v ≠ backupPath v := Ne.symm hbf
  have htb : tempPath v ≠ backupPath v := Ne.symm hbt
  obtain ⟨b0, hb0⟩ := assocLookup_makedirs_self (tempPath v) fs
  simp [saveModel, fsRename, hfinal, hbackup, hb0,
        assocLookup_makedirs_of_ne hft, assocLookup_makedirs_of_ne hbt,
        assocLookup_writePart_of_ne hft, assocLookup_writePart_of_ne hbt,
        assocLookup_writePart_self,
        assocLookup_set_of_ne htb, assocLookup_set_of_ne hfb, assocLookup_set_of_ne hbf,
        assocLookup_remove_of_ne htf, assocLookup_remove_of_ne hbt,
        assocLookup_remove_of_ne hbf,
        assocLookup_remove_self, assocLookup_set_self]

/-- Witness for C9: saving version v1 over an existing complete bundle with
all writes succeeding returns `false`, installs the new bundle at the final
path, and leaves the old bundle under the backup path. -/
theorem saveModel_success_leaves_backup_witness :
    (saveModel fsExisting "v1" true true true).1 = false ∧
    assocLookup (finalPath "v1") (saveModel fsExisting "v1" true true true).2
      = some ⟨true, true, true⟩ ∧
    assocLookup (backupPath "v1") (saveModel fsExisting "v1" true true true).2
      = some ⟨true, true, true⟩ :=
  saveModel_success_leaves_backup_and_returns_false fsExisting "v1" ⟨true, true, true⟩
    (by decide) (by decide)

/-! ## Claims about the preprocessor and the persona model -/

/-- Claim C2: a `DataPreprocessor` that has never completed a successful
`fit_transform` or state load still has `last_updated = None`, and every
`transform` call on it fails with a `PreprocessingError`; `transform` never
implicitly fits the preprocessor on its input (the state is returned
unchanged). -/
theorem transform_unfitted_fails (s : PreprocessorState) (rows : List RecRow)
    (h : s.lastUpdated = none) :
    transform s rows
      = Except.error ⟨"Transform failed: Preprocessor must be fitted before transform"⟩
    ∧ (transformStateful s rows).1 = s := by
  constructor
  · simp [transform, h]
  · rfl

/-- Witness for C2: the freshly constructed preprocessor rejects a
transform of a valid row. -/
theorem transform_unfitted_fails_witness :
    transform initialPreprocessorState rows0
      = Except.error ⟨"Transform failed: Preprocessor must be fitted before transform"⟩
    ∧ (transformStateful initialPreprocessorState rows0).1 = initialPreprocessorState :=
  transform_unfitted_fails initialPreprocessorState rows0 rfl

/-- Claim C5: after every successful `PersonaModel.train` call, incremental
or not, the prediction cache is empty (no entry cached before the call
survives it) and `training_iterations` has been incremented. -/
theorem personaTrain_clears_cache_and_increments (s : PersonaState) (now : Nat)
    (xTrain : List RecRow) (incremental : Bool)
    (fitResult : Except String TrainingHistory)
    (s2 : PersonaState) (m : TrainingMetrics)
    (h : personaTrain s now xTrain incremental fitResult = (s2, Except.ok m)) :
    s2.cache = [] ∧ s2.trainingIterations = s.trainingIterations + 1 := by
  simp only [personaTrain] at h
  split at h
  · simp at h
  · split at h
    · simp at h
    · split at h
      · injection h with hs hm
        subst hs
        exact ⟨rfl, rfl⟩
      · injection h with hs hm
        simp at hm

/-- Witness for C5: an incremental training call on a state holding one
cached prediction succeeds, empties the cache and bumps the counter. -/
theorem personaTrain_clears_cache_witness :
    ∃ s2 m, personaTrain personaState0 7 [] true (Except.ok history0)
        = (s2, Except.ok m)
      ∧ s2.cache = [] ∧ s2.trainingIterations = personaState0.trainingIterations + 1 := by
  refine ⟨_, _, rfl, ?_⟩
  exact personaTrain_clears_cache_and_increments personaState0 7 [] true
    (Except.ok history0) _ _ rfl

/-- Claim C3: whenever the confidence-threshold filter of
`PersonaModel.predict` removes every recommendation (and the call actually
reaches the filter, i.e. it is not served from the cache), the result is
not empty: the full unfiltered recommendation set is returned and every
returned confidence is exactly 0.5. -/
theorem personaPredict_fallback (s : PersonaState) (input : List RecRow) (useCache : Bool)
    (netRecs : List (List ℚ)) (netConf : List ℚ) (threshold : ℚ) (xp : List (List ℝ))
    (hmiss : useCache = false ∨ assocLookup input s.cache = none)
    (ht : transform s.pre input = Except.ok xp)
    (hne : netRecs ≠ [])
    (hfilter : (netRecs.zip netConf).filter (fun p => decide (threshold ≤ p.2)) = []) :
    ∃ s2, personaPredict s input useCache netRecs netConf threshold
        = (s2, Except.ok (netRecs, netConf.map (fun _ => (1 : ℚ) / 2)))
      ∧ netRecs ≠ []
      ∧ ∀ c ∈ netConf.map (fun _ => (1 : ℚ) / 2), c = 1 / 2 := by
  have hhalf : ∀ c ∈ netConf.map (fun _ => (1 : ℚ) / 2), c = 1 / 2 := by
    intro c hc
    simp only [List.mem_map] at hc
    obtain ⟨a, _, ha⟩ := hc
    exact ha.symm
  rcases hmiss with h | h
  · subst h
    refine ⟨s, ?_, hne, hhalf⟩
    simp [personaPredict, ht, hfilter]
  · cases useCache
    · refine ⟨s, ?_, hne, hhalf⟩
      simp [personaPredict, ht, hfilter]
    · refine ⟨{ s with
          cache := assocSet input (netRecs, netConf.map (fun _ => (1 : ℚ) / 2)) s.cache },
        ?_, hne, hhalf⟩
      simp [personaPredict, h, ht, hfilter]

/-- Witness for C3: one network row with confidence 0 against threshold
one half activates the fallback. -/
theorem personaPredict_fallback_witness :
    ∃ s2, personaPredict personaState0 [] false [[1]] [0] (1 / 2)
        = (s2, Except.ok ([[1]], [(0 : ℚ)].map (fun _ => (1 : ℚ) / 2)))
      ∧ [[(1 : ℚ)]] ≠ []
      ∧ ∀ c ∈ [(0 : ℚ)].map (fun _ => (1 : ℚ) / 2), c = 1 / 2 :=
  personaPredict_fallback personaState0 [] false [[1]] [0] (1 / 2) []
    (Or.inl rfl) rfl (by decide) (by simp)

/-! ## Claims about the Config Provider -/

theorem mergeConfigs_lookup_not_mem (ov : List (String × CVal)) :
    ∀ (base m : List (String × CVal)) (k : String), mergeConfigs base ov = some m →
      k ∉ ov.map Prod.fst → assocLookup k m = assocLookup k base := by
  induction ov with
  | nil =>
    intro base m k h _
    simp only [mergeConfigs, Option.some.injEq] at h
    rw [h]
  | cons hd rest ih =>
    obtain ⟨k0, v0⟩ := hd
    intro base m k h hk
    simp only [List.map_cons, List.mem_cons, not_or] at hk
    obtain ⟨hk0, hkrest⟩ := hk
    cases v0 with
    | leaf n =>
      simp only [mergeConfigs] at h
      rw [ih (assocSet k0 (CVal.leaf n) base) m k h hkrest,
          assocLookup_set_of_ne hk0]
    | dict o =>
      simp only [mergeConfigs] at h
      cases hb : assocLookup k0 base with
      | none =>
        simp only [hb] at h
        rw [ih (assocSet k0 (CVal.dict o) base) m k h hkrest,
            assocLookup_set_of_ne hk0]
      | some bv =>
        cases bv with
        | leaf nn => simp [hb] at h
        | dict bd =>
          simp only [hb] at h
          cases hmo : mergeConfigs bd o with
          | none => simp [hmo] at h
          | some md =>
            simp only [hmo] at h
            rw [ih (assocSet k0 (CVal.dict md) base) m k h hkrest,
                assocLookup_set_of_ne hk0]

/-- Claim C6: the merge used by the Config Provider is recursive with
override precedence.  For every base and override mapping on which the
merge completes, and every key: a key absent from the override keeps its
base value; a key whose override value is a dict and which is present in
the base is merged key-by-key recursively (the base value necessarily being
a dict itself); otherwise the override value replaces the base value. -/
theorem mergeConfigs_override_semantics (ov base m : List (String × CVal))
    (hnd : (ov.map Prod.fst).Nodup) (h : mergeConfigs base ov = some m) (k : String) :
    (assocLookup k ov = none → assocLookup k m = assocLookup k base)
    ∧ (∀ o bv, assocLookup k ov = some (CVal.dict o) → assocLookup k base = some bv →
        ∃ bd md, bv = CVal.dict bd ∧ mergeConfigs bd o = some md
          ∧ assocLookup k m = some (CVal.dict md))
    ∧ (∀ v, assocLookup k ov = some v →
        ((∃ n, v = CVal.leaf n) ∨ assocLookup k base = none) →
        assocLookup k m = some v) := by
  induction ov generalizing base m with
  | nil =>
    simp only [mergeConfigs, Option.some.injEq] at h
    subst h
    refine ⟨fun _ => rfl, ?_, ?_⟩
    · intro o bv ho
      simp [assocLookup] at ho
    · intro v hv
      simp [assocLookup] at hv
  | cons hd rest ih =>
    obtain ⟨k0, v0⟩ := hd
    simp only [List.map_cons, List.nodup_cons] at hnd
    obtain ⟨hk0rest, hndrest⟩ := hnd
    by_cases hk : k = k0
    · subst hk
      have hov : assocLookup k ((k, v0) :: rest) = some v0 := by simp [assocLookup]
      cases v0 with
      | leaf n =>
        simp only [mergeConfigs] at h
        have hm := mergeConfigs_lookup_not_mem rest (assocSet k (CVal.leaf n) base) m k h hk0rest
        rw [assocLookup_set_self] at hm
        refine ⟨?_, ?_, ?_⟩
        · intro hnone; rw [hov] at hnone; cases hnone
        · intro o bv ho _
          rw [hov] at ho
          simp at ho
        · intro v hv _
          rw [hov] at hv
          cases hv
          exact hm
      | dict o =>
        simp only [mergeConfigs] at h
        cases hb : assocLookup k base with
        | none =>
          simp only [hb] at h
          have hm := mergeConfigs_lookup_not_mem rest (assocSet k (CVal.dict o) base) m k h hk0rest
          rw [assocLookup_set_self] at hm
          refine ⟨?_, ?_, ?_⟩
          · intro hnone; rw [hov] at hnone; cases hnone
          · intro o2 bv ho hbv; exact Option.noConfusion hbv
          · intro v hv _
            rw [hov] at hv
            cases hv
            exact hm
        | some bv =>
          cases bv with
          | leaf nn => simp [hb] at h
          | dict bd =>
            simp only [hb] at h
            cases hmo : mergeConfigs bd o with
            | none => simp [hmo] at h
            | some md =>
              simp only [hmo] at h
              have hm := mergeConfigs_lookup_not_mem rest
                (assocSet k (CVal.dict md) base) m k h hk0rest
              rw [assocLookup_set_self] at hm
              refine ⟨?_, ?_, ?_⟩
              · intro hnone; rw [hov] at hnone; cases hnone
              · intro o2 bv2 ho2 hb2
                rw [hov] at ho2
                cases ho2
                cases hb2
                exact ⟨bd, md, rfl, hmo, hm⟩
              · intro v hv hcond
                rw [hov] at hv
                cases hv
                rcases hcond with ⟨n, hn⟩ | hnone2
                · cases hn
                · exact Option.noConfusion hnone2
    · have hov : assocLookup k ((k0, v0) :: rest) = assocLookup k rest := by
        simp [assocLookup, Ne.symm hk]
      cases v0 with
      | leaf n =>
        simp only [mergeConfigs] at h
        obtain ⟨c1, c2, c3⟩ := ih (assocSet k0 (CVal.leaf n) base) m hndrest h
        refine ⟨?_, ?_, ?_⟩
        · intro hnone
          rw [hov] at hnone
          rw [c1 hnone, assocLookup_set_of_ne hk]
        · intro o bv ho hbv
          rw [hov] at ho
          exact c2 o bv ho (by rw [assocLookup_set_of_ne hk]; exact hbv)
        · intro v hv hcond
          rw [hov] at hv
          refine c3 v hv ?_
          rcases hcond with hl | hnone2
          · exact Or.inl hl
          · exact Or.inr (by rw [assocLookup_set_of_ne hk]; exact hnone2)
      | dict o =>
        simp only [mergeConfigs] at h
        cases hb : assocLookup k0 base with
        | none =>
          simp only [hb] at h
          obtain ⟨c1, c2, c3⟩ := ih (assocSet k0 (CVal.dict o) base) m hndrest h
          refine ⟨?_, ?_, ?_⟩
          · intro hnone
            rw [hov] at hnone
            rw [c1 hnone, assocLookup_set_of_ne hk]
          · intro o2 bv ho hbv
            rw [hov] at ho
            exact c2 o2 bv ho (by rw [assocLookup_set_of_ne hk]; exact hbv)
          · intro v hv hcond
            rw [hov] at hv
            refine c3 v hv ?_
            rcases hcond with hl | hnone2
            · exact Or.inl hl
            · exact Or.inr (by rw [assocLookup_set_of_ne hk]; exact hnone2)
        | some bv =>
          cases bv with
          | leaf nn => simp [hb] at h
          | dict bd =>
            simp only [hb] at h
            cases hmo : mergeConfigs bd o with
            | none => simp [hmo] at h
            | some md =>
              simp only [hmo] at h
              obtain ⟨c1, c2, c3⟩ := ih (assocSet k0 (CVal.dict md) base) m hndrest h
              refine ⟨?_, ?_, ?_⟩
              · intro hnone
                rw [hov] at hnone
                rw [c1 hnone, assocLookup_set_of_ne hk]
              · intro o2 bv2 ho2 hbv2
                rw [hov] at ho2
                exact c2 o2 bv2 ho2 (by rw [assocLookup_set_of_ne hk]; exact hbv2)
              · intro v hv hcond
                rw [hov] at hv
                refine c3 v hv ?_
                rcases hcond with hl | hnone2
                · exact Or.inl hl
                · exact Or.inr (by rw [assocLookup_set_of_ne hk]; exact hnone2)

/-- Witness for C6: merging `base0` with `override0` keeps the base-only
key, replaces with the override-only key, and recursively merges the shared
dict-valued key. -/
theorem mergeConfigs_override_semantics_witness :
    assocLookup "c" merged0 = some (CVal.leaf 4)
    ∧ assocLookup "d" merged0 = some (CVal.leaf 11)
    ∧ assocLookup "b" merged0
        = some (CVal.dict [("x", CVal.leaf 2), ("y", CVal.leaf 9), ("z", CVal.leaf 10)]) := by
  have hm : mergeConfigs base0 override0 = some merged0 := by
    simp [mergeConfigs, base0, override0, merged0, assocSet, assocLookup]
  have hnd : (override0.map Prod.fst).Nodup := by
    simp [override0]
  refine ⟨?_, ?_, ?_⟩
  · have h := (mergeConfigs_override_semantics override0 base0 merged0 hnd hm "c").1
    rw [h (by simp [override0, assocLookup])]
    simp [base0, assocLookup]
  · exact (mergeConfigs_override_semantics override0 base0 merged0 hnd hm "d").2.2
      (CVal.leaf 11) (by simp [override0, assocLookup]) (Or.inl ⟨11, rfl⟩)
  · obtain ⟨bd, md, hbd, hmd, hl⟩ :=
      (mergeConfigs_override_semantics override0 base0 merged0 hnd hm "b").2.1
        [("y", CVal.leaf 9), ("z", CVal.leaf 10)]
        (CVal.dict [("x", CVal.leaf 2), ("y", CVal.leaf 3)])
        (by simp [override0, assocLookup]) (by simp [base0, assocLookup])
    cases hbd
    have hc : mergeConfigs [("x", CVal.leaf 2), ("y", CVal.leaf 3)]
        [("y", CVal.leaf 9), ("z", CVal.leaf 10)]
        = some [("x", CVal.leaf 2), ("y", CVal.leaf 9), ("z", CVal.leaf 10)] := by
      simp [mergeConfigs, assocSet, assocLookup]
    rw [hc] at hmd
    cases hmd
    exact hl

/-- Counterexample for C7: the claim says the ConfigValidation error names
exactly the keys actually absent; on a section missing only
`training_settings` the source raises an error naming the whole required
set (`model_architecture` and `hyperparameters` included), so the claim as
stated is false. -/
theorem validation_names_missing_keys_cex :
    ¬ (∀ (full d : List (String × CVal)),
        assocLookup "recommendation_model" full = some (CVal.dict d) →
        missingKeys d ≠ [] →
        getRecommendationConfig full
          = Except.error (ConfigError.validation (missingKeys d))) := by
  intro hall
  have h := hall cfgFull0 cfgSec0 rfl (by decide)
  have h2 : getRecommendationConfig cfgFull0
      = Except.error (ConfigError.validation requiredRecommendationKeys) := rfl
  rw [h2] at h
  have h3 : missingKeys cfgSec0 = ["training_settings"] := rfl
  rw [h3] at h
  simp [requiredRecommendationKeys] at h

/-- Claim C7 (amended): for every recommendation configuration section
with at least one required key absent, retrieval fails with a
ConfigValidation error naming the full required-key set — a fixed list
that contains every missing key (but also the present ones) — and the
missing required keys are never silently defaulted (no configuration is
returned). -/
theorem validation_names_required_keys (full d : List (String × CVal))
    (hd : assocLookup "recommendation_model" full = some (CVal.dict d))
    (hmiss : missingKeys d ≠ []) :
    getRecommendationConfig full
      = Except.error (ConfigError.validation requiredRecommendationKeys)
    ∧ missingKeys d ⊆ requiredRecommendationKeys := by
  constructor
  · cases hb : requiredRecommendationKeys.all (fun k => (assocLookup k d).isSome) with
    | true =>
      exfalso
      apply hmiss
      have hall := List.all_eq_true.mp hb
      unfold missingKeys
      rw [List.filter_eq_nil_iff]
      intro k hk
      have hs := hall k hk
      cases ha : assocLookup k d with
      | none => rw [ha] at hs; exact absurd hs (by simp)
      | some v => simp [ha]
    | false =>
      simp only [getRecommendationConfig, hd]
      simp [validateRecommendationConfig, hb]
  · intro x hx
    unfold missingKeys at hx
    exact List.mem_of_mem_filter hx

/-- Witness for the amended C7: a section missing only `training_settings`
makes retrieval fail with the error naming the required-key set. -/
theorem validation_names_required_keys_witness :
    getRecommendationConfig cfgFull0
      = Except.error (ConfigError.validation requiredRecommendationKeys)
    ∧ missingKeys cfgSec0 ⊆ requiredRecommendationKeys :=
  validation_names_required_keys cfgFull0 cfgSec0 rfl (by decide)

/-! ## Claims about confidence normalization -/

/-- Counterexample for C8: the claim says the zero-max degenerate case is
checked explicitly before dividing; the spec-modelled guarded normalization
reports an error on an all-zero batch while the source function just
divides, so the source does not implement the guarded behavior. -/
theorem confidence_guard_cex :
    ¬ (∀ (preds : List ℝ) (features : List (List ℝ)),
        checkedCalculateConfidence preds features
          = Except.ok (calculateConfidence preds features)) := by
  intro hall
  have h := hall [0] [[0]]
  have hmax : npMax (confidenceScoresRaw [0] [[0]]) = 0 := by
    simp [confidenceScoresRaw, npMean, npMax, List.foldl]
  simp only [checkedCalculateConfidence, hmax] at h
  simp at h

/-- Claim C8 (amended): the division-by-zero degenerate case of the
confidence normalization is not checked at all — `_calculate_confidence`
divides by the batch maximum unguarded, with no error report; on a batch
whose maximum raw confidence is 0 the division is still performed (numpy
produces NaN there; in the exact embedding, where division by zero yields
zero, the result is the all-zero vector of batch length). -/
theorem confidence_zero_max_unguarded (preds : List ℝ) (features : List (List ℝ))
    (h : npMax (confidenceScoresRaw preds features) = 0) :
    calculateConfidence preds features = features.map (fun _ => (0 : ℝ)) := by
  simp only [calculateConfidence]
  rw [h]
  simp only [div_zero, confidenceScoresRaw, List.map_map]
  rfl

/-- Witness for the amended C8: a single zero prediction with a single
zero feature row has zero maximum raw confidence, and the unguarded
division returns the zero vector instead of an error. -/
theorem confidence_zero_max_unguarded_witness :
    calculateConfidence [0] [[0]] = [[(0 : ℝ)]].map (fun _ => (0 : ℝ)) :=
  confidence_zero_max_unguarded [0] [[0]]
    (by simp [confidenceScoresRaw, npMean, npMax, List.foldl])

/-! ## Claims about the diversity selection loop -/

theorem seqOption_ne_none :
    ∀ (l : List (Option ℝ)), (∀ x ∈ l, x ≠ none) → seqOption l ≠ none := by
  intro l
  induction l with
  | nil => intro _; simp [seqOption]
  | cons x t ih =>
    intro h
    cases x with
    | none => exact absurd rfl (h none (List.mem_cons_self none t))
    | some v =>
      simp only [seqOption, Ne, Option.map_eq_none']
      exact ih (fun y hy => h y (List.mem_cons_of_mem _ hy))

theorem mmrScore_ne_none (preds : List ℝ) (feats : List (List ℝ)) (sel : List Nat) (i : Nat)
    (hnorm : ∀ j, j < preds.length → vecNorm (feats.getD j []) ≠ 0)
    (hsel : ∀ j ∈ sel, j < preds.length) (hi : i < preds.length) :
    mmrScore preds feats sel i ≠ none := by
  simp only [mmrScore, Ne, Option.map_eq_none']
  by_cases hempty : sel.isEmpty
  · rw [if_pos hempty]
    simp [calculateDiversity]
  · rw [if_neg hempty]
    simp only [calculateDiversity, nanMean, Option.map_eq_none']
    apply seqOption_ne_none
    intro x hx
    simp only [List.mem_map] at hx
    obtain ⟨s, hs, hxeq⟩ := hx
    obtain ⟨j, hj, hseq⟩ := hs
    rw [← hxeq, ← hseq]
    unfold nanDiv
    rw [if_neg (mul_ne_zero (hnorm i hi) (hnorm j (hsel j hj)))]
    simp

theorem bestGo_ne_none_of_acc (preds : List ℝ) (feats : List (List ℝ)) (sel : List Nat) :
    ∀ (l : List Nat) (acc : Option (Nat × ℝ)), acc ≠ none →
      bestGo preds feats sel l acc ≠ none := by
  intro l
  induction l with
  | nil => intro acc h; simpa [bestGo] using h
  | cons i is ih =>
    intro acc h
    simp only [bestGo]
    apply ih
    by_cases hi : i ∈ sel
    · simpa [hi] using h
    · rw [if_neg hi]
      cases hsc : mmrScore preds feats sel i with
      | none => exact h
      | some sc =>
        cases acc with
        | none => simp
        | some p =>
          obtain ⟨j, s⟩ := p
          by_cases hs : s < sc <;> simp [hs]

theorem bestGo_ne_none_of_mem (preds : List ℝ) (feats : List (List ℝ)) (sel : List Nat) :
    ∀ (l : List Nat) (acc : Option (Nat × ℝ)) (i : Nat), i ∈ l → i ∉ sel →
      mmrScore preds feats sel i ≠ none →
      bestGo preds feats sel l acc ≠ none := by
  intro l
  induction l with
  | nil => intro acc i hi; exact absurd hi (List.not_mem_nil i)
  | cons j is ih =>
    intro acc i hi hisel hscore
    simp only [bestGo]
    rcases List.mem_cons.mp hi with rfl | hi2
    · apply bestGo_ne_none_of_acc
      rw [if_neg hisel]
      cases hsc : mmrScore preds feats sel i with
      | none => exact absurd hsc hscore
      | some sc =>
        cases acc with
        | none => simp
        | some p =>
          obtain ⟨j0, s0⟩ := p
          by_cases hs : s0 < sc <;> simp [hs]
    · exact ih _ i hi2 hisel hscore

theorem bestGo_some_spec (preds : List ℝ) (feats : List (List ℝ)) (sel : List Nat) :
    ∀ (l : List Nat) (acc : Option (Nat × ℝ)) (j : Nat) (s : ℝ),
      bestGo preds feats sel l acc = some (j, s) →
      acc = some (j, s) ∨ (j ∈ l ∧ j ∉ sel) := by
  intro l
  induction l with
  | nil => intro acc j s h; exact Or.inl (by simpa [bestGo] using h)
  | cons i is ih =>
    intro acc j s h
    simp only [bestGo] at h
    rcases ih _ j s h with hacc | ⟨hmem, hnsel⟩
    · by_cases hi : i ∈ sel
      · rw [if_pos hi] at hacc
        exact Or.inl hacc
      · rw [if_neg hi] at hacc
        cases hsc : mmrScore preds feats sel i with
        | none =>
          rw [hsc] at hacc
          exact Or.inl hacc
        | some sc =>
          rw [hsc] at hacc
          cases acc with
          | none =>
            dsimp only at hacc
            simp only [Option.some.injEq, Prod.mk.injEq] at hacc
            exact Or.inr ⟨by simp [hacc.1.symm], hacc.1 ▸ hi⟩
          | some p =>
            obtain ⟨j0, s0⟩ := p
            dsimp only at hacc
            by_cases hs : s0 < sc
            · rw [if_pos hs] at hacc
              simp only [Option.some.injEq, Prod.mk.injEq] at hacc
              exact Or.inr ⟨by simp [hacc.1.symm], hacc.1 ▸ hi⟩
            · rw [if_neg hs] at hacc
              exact Or.inl hacc
    · exact Or.inr ⟨List.mem_cons_of_mem i hmem, hnsel⟩

theorem bestCandidate_spec (preds : List ℝ) (feats : List (List ℝ)) (sel : List Nat)
    (hex : ∃ i, i < preds.length ∧ i ∉ sel ∧ mmrScore preds feats sel i ≠ none) :
    ∃ j, bestCandidate preds feats sel = some j ∧ j < preds.length ∧ j ∉ sel := by
  obtain ⟨i, hi, hisel, hscore⟩ := hex
  have hne := bestGo_ne_none_of_mem preds feats sel (List.range preds.length) none i
    (List.mem_range.mpr hi) hisel hscore
  cases hbg : bestGo preds feats sel (List.range preds.length) none with
  | none => exact absurd hbg hne
  | some p =>
    obtain ⟨j, s⟩ := p
    rcases bestGo_some_spec preds feats sel _ _ j s hbg with hacc | ⟨hmem, hnsel⟩
    · exact Option.noConfusion hacc
    · exact ⟨j, by simp [bestCandidate, hbg], List.mem_range.mp hmem, hnsel⟩

theorem exists_unselected (sel : List Nat) (M : Nat) (h : sel.length < M) :
    ∃ i, i < M ∧ i ∉ sel := by
  by_contra hc
  push_neg at hc
  have hsub : List.range M ⊆ sel := fun i hi => hc i (List.mem_range.mp hi)
  have h1 : (List.range M).toFinset ⊆ sel.toFinset := by
    intro x hx
    exact List.mem_toFinset.mpr (hsub (List.mem_toFinset.mp hx))
  have h2 := Finset.card_le_card h1
  rw [List.toFinset_card_of_nodup (List.nodup_range M), List.length_range] at h2
  have h3 := List.toFinset_card_le sel
  omega

theorem selectLoop_spec (preds : List ℝ) (feats : List (List ℝ)) (n : Nat)
    (hnorm : ∀ j, j < preds.length → vecNorm (feats.getD j []) ≠ 0) :
    ∀ (fuel : Nat) (sel : List Nat), sel.Nodup → (∀ i ∈ sel, i < preds.length) →
      n ≤ preds.length → sel.length ≤ n → n ≤ sel.length + fuel →
      ∃ out, selectLoop preds feats n fuel sel = some out ∧ out.length = n
        ∧ out.Nodup ∧ ∀ i ∈ out, i < preds.length := by
  intro fuel
  induction fuel with
  | zero =>
    intro sel hnd hlt hnM hlen hfuel
    have heq : sel.length = n := by omega
    exact ⟨sel, by simp [selectLoop, heq], heq, hnd, hlt⟩
  | succ f ih =>
    intro sel hnd hlt hnM hlen hfuel
    by_cases hstop : n ≤ sel.length
    · have heq : sel.length = n := le_antisymm hlen hstop
      exact ⟨sel, by simp [selectLoop, hstop], heq, hnd, hlt⟩
    · push_neg at hstop
      have hlM : sel.length < preds.length := lt_of_lt_of_le hstop hnM
      obtain ⟨i0, hi0, hi0sel⟩ := exists_unselected sel preds.length hlM
      obtain ⟨j, hbc, hjM, hjsel⟩ := bestCandidate_spec preds feats sel
        ⟨i0, hi0, hi0sel, mmrScore_ne_none preds feats sel i0 hnorm hlt hi0⟩
      have hnd2 : (sel ++ [j]).Nodup := by
        refine List.Nodup.append hnd (List.nodup_singleton j) ?_
        intro a ha hb
        rw [List.mem_singleton] at hb
        subst hb
        exact hjsel ha
      have hlt2 : ∀ i ∈ sel ++ [j], i < preds.length := by
        intro i hi
        rcases List.mem_append.mp hi with h1 | h1
        · exact hlt i h1
        · rw [List.mem_singleton] at h1
          subst h1
          exact hjM
      obtain ⟨out, hloop, hol, hond, holt⟩ := ih (sel ++ [j]) hnd2 hlt2 hnM
        (by simp; omega) (by simp; omega)
      refine ⟨out, ?_, hol, hond, holt⟩
      simp only [selectLoop, if_neg (not_le.mpr hstop), hbc]
      exact hloop

/-- Counterexample for C4: the claim as stated is false on the source.
Pool size M = 2 with N = 2 satisfies M at least N, but the second feature
vector in the pool having zero norm means that after the first pick every
remaining cosine similarity is `0.0/0.0 = NaN`, every remaining MMR score
is NaN, `score > best_score` never holds again, `best_idx` stays `-1`, and
the `while` loop of `_enhance_diversity` never terminates — the fueled
embedding returns `none` instead of a selection of length 2. -/
theorem enhanceDiversity_mmr_cex :
    ¬ (∀ (preds : List ℝ) (feats : List (List ℝ)) (n : Nat), n ≤ preds.length →
        ∃ sel, enhanceSelect preds feats n = some sel ∧ sel.length = n) := by
  intro hall
  obtain ⟨sel, hsel, hlen⟩ := hall [0, 0] [[0], [0]] 2 (by simp)
  have hrange : List.range 2 = [0, 1] := rfl
  have hn0 : vecNorm [(0 : ℝ)] = 0 := by simp [vecNorm, dotProduct]
  have hm0 : mmrScore [0, 0] [[0], [0]] [] 0
      = some ((0.5 : ℝ) * 0 + (1 - 0.5) * 1) := rfl
  have hm1 : mmrScore [0, 0] [[0], [0]] [] 1
      = some ((0.5 : ℝ) * 0 + (1 - 0.5) * 1) := rfl
  have hbc1 : bestCandidate [0, 0] [[0], [0]] [] = some 0 := by
    simp [bestCandidate, bestGo, hrange, hm0, hm1]
  have hm2 : mmrScore [0, 0] [[0], [0]] [0] 1 = none := by
    simp [mmrScore, calculateDiversity, nanMean, seqOption, nanDiv, hn0]
  have hbc2 : bestCandidate [0, 0] [[0], [0]] [0] = none := by
    simp [bestCandidate, bestGo, hrange, hm2]
  have hdiv : enhanceSelect [0, 0] [[0], [0]] 2 = none := by
    simp [enhanceSelect, selectLoop, hbc1, hbc2]
  rw [hdiv] at hsel
  exact Option.noConfusion hsel

/-- Claim C4 (amended): for every candidate pool of size M and request for
N selections with M at least N, in which every candidate feature vector
has nonzero norm (no cosine similarity degenerates to `0.0/0.0 = NaN`),
the greedy maximal-marginal-relevance loop of `_enhance_diversity`
terminates and returns exactly N selections whose chosen indices are
pairwise distinct and in range; a candidate evaluated when nothing has
been selected yet receives diversity exactly 1.0 (its MMR score is
`0.5 * relevance + 0.5 * 1`), and for M = 1 the single item is picked.
Without the nonzero-norm hypothesis the loop can spin forever, as the
counterexample to the original claim exhibits. -/
theorem enhanceDiversity_mmr (preds : List ℝ) (feats : List (List ℝ)) (n : Nat)
    (h : n ≤ preds.length)
    (hnorm : ∀ j, j < preds.length → vecNorm (feats.getD j []) ≠ 0) :
    ∃ sel, enhanceSelect preds feats n = some sel
      ∧ sel.length = n ∧ sel.Nodup
      ∧ (∀ i ∈ sel, i < preds.length)
      ∧ enhanceDiversity preds feats n = some (sel.map (fun i => preds.getD i 0))
      ∧ (∀ v, calculateDiversity v none = some 1)
      ∧ (∀ i, mmrScore preds feats [] i
          = some (0.5 * preds.getD i 0 + (1 - 0.5) * 1))
      ∧ (preds.length = 1 → n = 1 → sel = [0]) := by
  obtain ⟨out, hloop, holen, hond, holt⟩ := selectLoop_spec preds feats n hnorm n []
    List.nodup_nil (fun i hi => absurd hi (List.not_mem_nil i)) h (by simp) (by simp)
  refine ⟨out, hloop, holen, hond, holt, ?_, fun v => rfl, fun i => rfl, ?_⟩
  · unfold enhanceDiversity enhanceSelect
    rw [hloop]
    rfl
  · intro h1 hn1
    subst hn1
    obtain ⟨a, rfl⟩ := List.length_eq_one.mp holen
    have ha := holt a (by simp)
    rw [h1] at ha
    have : a = 0 := by omega
    subst this
    rfl

/-- Witness for the amended C4: a pool of one candidate with nonzero-norm
feature vector and one requested selection picks that single item. -/
theorem enhanceDiversity_mmr_witness :
    ∃ sel, enhanceSelect [(0.3 : ℝ)] [[1]] 1 = some sel
      ∧ sel.length = 1 ∧ sel.Nodup
      ∧ (∀ i ∈ sel, i < List.length [(0.3 : ℝ)])
      ∧ enhanceDiversity [(0.3 : ℝ)] [[1]] 1
          = some (sel.map (fun i => List.getD [(0.3 : ℝ)] i 0))
      ∧ (∀ v, calculateDiversity v none = some 1)
      ∧ (∀ i, mmrScore [(0.3 : ℝ)] [[1]] [] i
          = some (0.5 * List.getD [(0.3 : ℝ)] i 0 + (1 - 0.5) * 1))
      ∧ (List.length [(0.3 : ℝ)] = 1 → 1 = 1 → sel = [0]) :=
  enhanceDiversity_mmr [(0.3 : ℝ)] [[1]] 1 (by simp)
    (by
      intro j hj
      simp only [List.length_singleton, Nat.lt_one_iff] at hj
      subst hj
      simp [vecNorm, dotProduct, Real.sqrt_one])

/-! ## Claims about the recommendation train/update label derivation -/

theorem processRow_spec (t : FittedTransformers) (r : RecRow) (x : List ℝ)
    (h : processRow t r = some x) :
    ∃ d st a, encodeClass t.destClasses r.destinationType = some d
      ∧ encodeClass t.styleClasses r.travelStyle = some st
      ∧ encodeClass t.accomClasses r.accommodationType = some a
      ∧ x = [(r.budget - t.numMeans.getD 0 0) / t.numScales.getD 0 1,
             (r.duration - t.numMeans.getD 1 0) / t.numScales.getD 1 1,
             (r.groupSize - t.numMeans.getD 2 0) / t.numScales.getD 2 1,
             (d : ℝ), (st : ℝ), (a : ℝ)] := by
  simp only [processRow] at h
  cases hd : encodeClass t.destClasses r.destinationType with
  | none => simp [hd] at h
  | some d =>
    cases hst : encodeClass t.styleClasses r.travelStyle with
    | none => simp [hd, hst] at h
    | some st =>
      cases ha : encodeClass t.accomClasses r.accommodationType with
      | none => simp [hd, hst, ha] at h
      | some a =>
        simp only [hd, hst, ha, Option.bind_eq_bind, Option.some_bind,
          Option.pure_def, Option.some.injEq] at h
        exact ⟨d, st, a, rfl, rfl, rfl, h.symm⟩

theorem processAll_last (t : FittedTransformers) :
    ∀ (rows : List RecRow) (m : List (List ℝ)), processAll t rows = some m →
      m.map (fun r => (r.getLast?).getD 0)
        = rows.map (fun r =>
            (((encodeClass t.accomClasses r.accommodationType).getD 0 : Nat) : ℝ)) := by
  intro rows
  induction rows with
  | nil =>
    intro m h
    simp only [processAll, Option.some.injEq] at h
    subst h
    rfl
  | cons r rs ih =>
    intro m h
    simp only [processAll] at h
    cases hx : processRow t r with
    | none => simp [hx] at h
    | some x =>
      cases hxs : processAll t rs with
      | none => simp [hx, hxs] at h
      | some xs =>
        simp only [hx, hxs, Option.bind_eq_bind, Option.some_bind,
          Option.pure_def, Option.some.injEq] at h
        subst h
        obtain ⟨d, st, a, _, _, ha, hxval⟩ := processRow_spec t r x hx
        simp only [List.map_cons, ih xs hxs, hxval, ha]
        simp

/-- Claim C10: `RecommendationModel.train` and `RecommendationModel.update`
accept no caller-supplied label vector; both derive the framework `fit`
inputs from the preprocessed feature matrix itself, using its last column
as `y_train` and all preceding columns as `X_train` — and that last column
is the integer-encoded final categorical feature (`accommodation_type`),
so the predictor is trained to predict a transformed input feature rather
than an externally provided label. -/
theorem recTrain_derives_labels (rows : List RecRow) (X : List (List ℝ)) (y : List ℝ)
    (h : recTrainInputs rows = some (X, y)) :
    (∃ m, processAll (fitTransformers rows) rows = some m
       ∧ X = m.map (fun r => r.dropLast)
       ∧ y = m.map (fun r => (r.getLast?).getD 0))
    ∧ y = rows.map (fun r =>
        (((encodeClass (classesOf (rows.map RecRow.accommodationType))
            r.accommodationType).getD 0 : Nat) : ℝ))
    ∧ (∀ (s : PreprocessorState) (rows2 : List RecRow) (X2 : List (List ℝ)) (y2 : List ℝ)
         (m2 : List (List ℝ)), recUpdateInputs s rows2 = some (X2, y2) →
         transform s rows2 = Except.ok m2 →
         X2 = m2.map (fun r => r.dropLast) ∧ y2 = m2.map (fun r => (r.getLast?).getD 0)) := by
  refine ⟨?_, ?_, ?_⟩
  · cases hm : processAll (fitTransformers rows) rows with
    | none =>
      simp only [recTrainInputs, hm] at h
      exact absurd h (by simp)
    | some m =>
      simp only [recTrainInputs, hm, Option.map_some', splitFeaturesLabels,
        Option.some.injEq, Prod.mk.injEq] at h
      exact ⟨m, rfl, h.1.symm, h.2.symm⟩
  · cases hm : processAll (fitTransformers rows) rows with
    | none =>
      simp only [recTrainInputs, hm] at h
      exact absurd h (by simp)
    | some m =>
      simp only [recTrainInputs, hm, Option.map_some', splitFeaturesLabels,
        Option.some.injEq, Prod.mk.injEq] at h
      rw [← h.2]
      have hacc : (fitTransformers rows).accomClasses
          = classesOf (rows.map RecRow.accommodationType) := rfl
      rw [← hacc]
      exact processAll_last (fitTransformers rows) rows m hm
  · intro s rows2 X2 y2 m2 h2 ht2
    simp only [recUpdateInputs, ht2, splitFeaturesLabels, Option.some.injEq,
      Prod.mk.injEq] at h2
    exact ⟨h2.1.symm, h2.2.symm⟩

/-- Witness for C10: on a one-row frame the derived label vector is the
encoded `accommodation_type` column (index 0 in its fitted classes). -/
theorem recTrain_derives_labels_witness :
    ∃ X y, recTrainInputs rows0 = some (X, y) ∧ y = [((0 : Nat) : ℝ)] := by
  obtain ⟨⟨X, y⟩, h⟩ : ∃ p, recTrainInputs rows0 = some p := ⟨_, rfl⟩
  refine ⟨X, y, h, ?_⟩
  have h2 := (recTrain_derives_labels rows0 X y h).2.1
  rw [h2]
  simp [rows0, classesOf, encodeClass, List.insertionSort, List.orderedInsert]
